import Mathlib

/-!
Verification development for the `useExponentiationOperator` analyzer rule
(`crates/rome_js_analyze/src/analyzers/style/use_exponentiation_operator.rs`)
and the markup printer (`crates/rome_console/src/markup.rs`).

The rule file is embedded function by function.  Collaborator code that lives
elsewhere in the repository (the `rome_js_syntax` precedence model and helper
extractors, the `rome_diagnostics` applicability levels, the `rome_rowan`
batch-mutation facility, the semantic model) is modelled from the
specification; each such definition carries a doc comment starting with
`Modelled from the spec:`.
-/

/-- Modelled from the spec: `OperatorPrecedence` (in `rome_js_syntax`, not under
`src/`): a total order of precedence levels from lowest-binding to
highest-binding, with a dedicated right-associative `Exponential` level. -/
inductive OperatorPrecedence
  | comma
  | yieldLevel
  | assignment
  | conditional
  | coalesce
  | logicalOr
  | logicalAnd
  | bitwiseOr
  | bitwiseXor
  | bitwiseAnd
  | equality
  | relational
  | shift
  | additive
  | multiplicative
  | exponential
  | unary
  | update
  | leftHandSide
  | member
  | primary
  deriving DecidableEq, Repr

/-- Discriminant of a precedence level; the total order of `OperatorPrecedence`
is the order of these discriminants. -/
def OperatorPrecedence.toNat : OperatorPrecedence → Nat
  | .comma => 0
  | .yieldLevel => 1
  | .assignment => 2
  | .conditional => 3
  | .coalesce => 4
  | .logicalOr => 5
  | .logicalAnd => 6
  | .bitwiseOr => 7
  | .bitwiseXor => 8
  | .bitwiseAnd => 9
  | .equality => 10
  | .relational => 11
  | .shift => 12
  | .additive => 13
  | .multiplicative => 14
  | .exponential => 15
  | .unary => 16
  | .update => 17
  | .leftHandSide => 18
  | .member => 19
  | .primary => 20

instance : LE OperatorPrecedence := ⟨fun a b => a.toNat ≤ b.toNat⟩

instance : LT OperatorPrecedence := ⟨fun a b => a.toNat < b.toNat⟩

instance (a b : OperatorPrecedence) : Decidable (a ≤ b) :=
  Nat.decLe a.toNat b.toNat

instance (a b : OperatorPrecedence) : Decidable (a < b) :=
  Nat.decLt a.toNat b.toNat

/-- The binary operators of `JsBinaryExpression` (`JsBinaryOperator` in
`rome_js_syntax`). -/
inductive JsBinaryOperator
  | lessThan
  | greaterThan
  | lessThanOrEqual
  | greaterThanOrEqual
  | equalityOp
  | strictEquality
  | inequality
  | strictInequality
  | plus
  | minus
  | times
  | divide
  | remainder
  | exponent
  | leftShiftOp
  | rightShiftOp
  | unsignedRightShiftOp
  | bitwiseAndOp
  | bitwiseOrOp
  | bitwiseXorOp
  deriving DecidableEq, Repr

/-- One element of a call-argument list as the rule's iterator over the
separated list sees it: a well-formed expression argument, a spread argument,
or a missing element (the iterator yields a syntax error there). -/
inductive CallArgEntry (α : Type)
  | okExpr (e : α)
  | okSpread
  | err
  deriving DecidableEq, Repr

/-- The fragment of `AnyJsExpression` that the rule inspects.  Constructors
carry the children the analyzed code reads; kinds the code only dispatches on
are nullary. -/
inductive Expr
  | jsParenthesizedExpression (expression : Expr)
  | jsBinaryExpression (left : Expr) (operator : JsBinaryOperator) (right : Expr)
  | jsCallExpression (callee : Expr) (args : List (CallArgEntry Expr))
  | jsNewExpression (callee : Expr) (args : Option (List (CallArgEntry Expr)))
  | jsStaticMemberExpression (object : Expr) (member : String)
  | jsComputedMemberExpression (object : Expr) (member : Expr)
  | jsInExpression (property : Expr) (object : Expr)
  | jsClassExpression
  | jsUnaryExpression (argument : Expr)
  | jsAwaitExpression (argument : Expr)
  | jsPreUpdateExpression (operand : Expr)
  | jsPostUpdateExpression (operand : Expr)
  | jsTemplateExpression
  | jsIdentifierExpression (name : String)
  | jsStringLiteralExpression (value : String)
  | jsNumberLiteralExpression (value : Nat)
  | jsConditionalExpression (test : Expr) (consequent : Expr) (alternate : Expr)
  | jsSequenceExpression (left : Expr) (right : Expr)
  deriving Repr

/-- Precedence of a binary operator. -/
def JsBinaryOperator.precedenceLevel : JsBinaryOperator → OperatorPrecedence
  | .lessThan | .greaterThan | .lessThanOrEqual | .greaterThanOrEqual => .relational
  | .equalityOp | .strictEquality | .inequality | .strictInequality => .equality
  | .plus | .minus => .additive
  | .times | .divide | .remainder => .multiplicative
  | .exponent => .exponential
  | .leftShiftOp | .rightShiftOp | .unsignedRightShiftOp => .shift
  | .bitwiseAndOp => .bitwiseAnd
  | .bitwiseOrOp => .bitwiseOr
  | .bitwiseXorOp => .bitwiseXor

/-- Modelled from the spec: the Precedence Model (`AnyJsExpression::precedence`
in `rome_js_syntax`, not under `src/`): assigns each expression kind a
precedence level; total and pure; a parenthesized expression is transparent to
precedence and is treated as the maximum level. -/
def precedence : Expr → OperatorPrecedence
  | .jsParenthesizedExpression _ => .primary
  | .jsBinaryExpression _ op _ => op.precedenceLevel
  | .jsCallExpression _ _ => .leftHandSide
  | .jsNewExpression _ _ => .leftHandSide
  | .jsStaticMemberExpression _ _ => .member
  | .jsComputedMemberExpression _ _ => .member
  | .jsInExpression _ _ => .relational
  | .jsClassExpression => .primary
  | .jsUnaryExpression _ => .unary
  | .jsAwaitExpression _ => .unary
  | .jsPreUpdateExpression _ => .unary
  | .jsPostUpdateExpression _ => .update
  | .jsTemplateExpression => .member
  | .jsIdentifierExpression _ => .primary
  | .jsStringLiteralExpression _ => .primary
  | .jsNumberLiteralExpression _ => .primary
  | .jsConditionalExpression _ _ _ => .conditional
  | .jsSequenceExpression _ _ => .comma

/-- `AnyJsExpression::omit_parentheses`: strip all surrounding parenthesized
wrappers. -/
def omitParentheses : Expr → Expr
  | .jsParenthesizedExpression e => omitParentheses e
  | e => e

/-- `as_js_unary_expression().is_some()`. -/
def isJsUnaryExpression : Expr → Bool
  | .jsUnaryExpression _ => true
  | _ => false

/-- `as_js_await_expression().is_some()`. -/
def isJsAwaitExpression : Expr → Bool
  | .jsAwaitExpression _ => true
  | _ => false

/-- `as_js_pre_update_expression().is_some()`. -/
def isJsPreUpdateExpression : Expr → Bool
  | .jsPreUpdateExpression _ => true
  | _ => false

/-- `as_js_post_update_expression().is_some()`. -/
def isJsPostUpdateExpression : Expr → Bool
  | .jsPostUpdateExpression _ => true
  | _ => false

/-- `as_js_call_expression().is_some()`. -/
def isJsCallExpression : Expr → Bool
  | .jsCallExpression _ _ => true
  | _ => false

/-- `as_js_parenthesized_expression().is_some()`. -/
def isJsParenthesizedExpression : Expr → Bool
  | .jsParenthesizedExpression _ => true
  | _ => false

mutual

/-- Node comparison.  Syntax nodes are value-comparable by identity/position;
in this value embedding identity is modelled as structural equality. -/
def exprBeq : Expr → Expr → Bool
  | .jsParenthesizedExpression a, .jsParenthesizedExpression b => exprBeq a b
  | .jsBinaryExpression l1 o1 r1, .jsBinaryExpression l2 o2 r2 =>
      o1 == o2 && exprBeq l1 l2 && exprBeq r1 r2
  | .jsCallExpression c1 a1, .jsCallExpression c2 a2 =>
      exprBeq c1 c2 && argListBeq a1 a2
  | .jsNewExpression c1 a1, .jsNewExpression c2 a2 =>
      exprBeq c1 c2 && optArgListBeq a1 a2
  | .jsStaticMemberExpression o1 m1, .jsStaticMemberExpression o2 m2 =>
      exprBeq o1 o2 && m1 == m2
  | .jsComputedMemberExpression o1 m1, .jsComputedMemberExpression o2 m2 =>
      exprBeq o1 o2 && exprBeq m1 m2
  | .jsInExpression p1 o1, .jsInExpression p2 o2 =>
      exprBeq p1 p2 && exprBeq o1 o2
  | .jsClassExpression, .jsClassExpression => true
  | .jsUnaryExpression a, .jsUnaryExpression b => exprBeq a b
  | .jsAwaitExpression a, .jsAwaitExpression b => exprBeq a b
  | .jsPreUpdateExpression a, .jsPreUpdateExpression b => exprBeq a b
  | .jsPostUpdateExpression a, .jsPostUpdateExpression b => exprBeq a b
  | .jsTemplateExpression, .jsTemplateExpression => true
  | .jsIdentifierExpression a, .jsIdentifierExpression b => a == b
  | .jsStringLiteralExpression a, .jsStringLiteralExpression b => a == b
  | .jsNumberLiteralExpression a, .jsNumberLiteralExpression b => a == b
  | .jsConditionalExpression a1 b1 c1, .jsConditionalExpression a2 b2 c2 =>
      exprBeq a1 a2 && exprBeq b1 b2 && exprBeq c1 c2
  | .jsSequenceExpression a1 b1, .jsSequenceExpression a2 b2 =>
      exprBeq a1 a2 && exprBeq b1 b2
  | _, _ => false
termination_by structural a => a

/-- Comparison of argument-list entries. -/
def argBeq : CallArgEntry Expr → CallArgEntry Expr → Bool
  | .okExpr a, .okExpr b => exprBeq a b
  | .okSpread, .okSpread => true
  | .err, .err => true
  | _, _ => false
termination_by structural a => a

/-- Comparison of argument lists. -/
def argListBeq : List (CallArgEntry Expr) → List (CallArgEntry Expr) → Bool
  | [], [] => true
  | a :: as1, b :: bs1 => argBeq a b && argListBeq as1 bs1
  | _, _ => false
termination_by structural a => a

/-- Comparison of optional argument lists. -/
def optArgListBeq : Option (List (CallArgEntry Expr)) → Option (List (CallArgEntry Expr)) → Bool
  | none, none => true
  | some a, some b => argListBeq a b
  | _, _ => false
termination_by structural a => a

end

/-- Modelled from the spec: the semantic model collaborator
(`binding(identifier_reference) -> Option<Declaration>`; `None` means
unresolved/global).  A reference is identified by the referenced name. -/
structure SemanticModel where
  binding : String → Option Unit

/-- Modelled from the spec: global-identifier extraction
(`rome_js_syntax::global_identifier`, not under `src/`): succeeds on a bare
identifier, yielding the identifier reference (identified by its name) and the
name. -/
def globalIdentifier : Expr → Option (String × String)
  | .jsIdentifierExpression name => some (name, name)
  | _ => none

/-- `AnyJsMemberExpression::cast_ref`: a member expression is a static or a
computed member access. -/
def castAnyJsMemberExpression : Expr → Option Expr
  | e@(.jsStaticMemberExpression _ _) => some e
  | e@(.jsComputedMemberExpression _ _) => some e
  | _ => none

/-- Modelled from the spec: member-name extraction
(`AnyJsMemberExpression::member_name` in `rome_js_syntax`, not under `src/`):
the name of a static member access, or the string-literal key of a computed
member access. -/
def memberName : Expr → Option String
  | .jsStaticMemberExpression _ name => some name
  | .jsComputedMemberExpression _ (.jsStringLiteralExpression s) => some s
  | _ => none

/-- `AnyJsMemberExpression::object`. -/
def memberObject : Expr → Option Expr
  | .jsStaticMemberExpression o _ => some o
  | .jsComputedMemberExpression o _ => some o
  | _ => none

/-- `UseExponentiationOperator::run`: the query visits call expressions; the
callee with parentheses stripped must be a member access named `pow`, its
object with parentheses stripped must extract as a global identifier named
`Math`, and the semantic binding lookup for that reference must be
unresolved. -/
def run (model : SemanticModel) (node : Expr) : Option Unit :=
  match node with
  | .jsCallExpression callee0 _ =>
    match castAnyJsMemberExpression (omitParentheses callee0) with
    | none => none
    | some memberExpr =>
      match memberName memberExpr with
      | none => none
      | some name =>
        if name != "pow" then none
        else
          match memberObject memberExpr with
          | none => none
          | some object0 =>
            match globalIdentifier (omitParentheses object0) with
            | none => none
            | some (reference, gname) =>
              if gname != "Math" then none
              else if (model.binding reference).isNone then some () else none
  | _ => none

/-- The data of a rule diagnostic: the category and message are fixed by the
rule; the range is the matched node's range, modelled by the node itself. -/
structure RuleDiagnostic where
  range : Expr

/-- `UseExponentiationOperator::diagnostic`: always emits a diagnostic at the
matched call's range. -/
def diagnostic (node : Expr) : Option RuleDiagnostic :=
  some ⟨node⟩

/-- The first `Some` produced by the `find_map` closure over the parent call's
arguments: for the first argument that is `Ok`, an expression and a call
expression, the closure yields whether that argument is the matched node. -/
def firstCallArgComparedToNode (node : Expr) : List (CallArgEntry Expr) → Option Bool
  | [] => none
  | .okExpr e :: rest =>
      match e with
      | .jsCallExpression c a => some (exprBeq (.jsCallExpression c a) node)
      | _ => firstCallArgComparedToNode node rest
  | .okSpread :: rest => firstCallArgComparedToNode node rest
  | .err :: rest => firstCallArgComparedToNode node rest

/-- The final gate of `does_expression_need_parens`:
`Some(needs_parentheses && expression.precedence().ok()? >= OperatorPrecedence::Exponential)`. -/
def gateExponential (expression : Expr) (needsParentheses : Bool) : Option Bool :=
  some (needsParentheses && decide (OperatorPrecedence.exponential ≤ precedence expression))

/-- `does_expression_need_parens`: determines whether the given expression
(the matched node's parent) needs parens when used in an exponentiation binary
expression.  The Rust code queries `bin_expr.parent::<JsInExpression>()`;
parent links are lookup-only navigation, so the embedding receives that
grandparent fact as the explicit flag `expressionParentIsInExpression`. -/
def does_expression_need_parens (node : Expr) (expression : Expr)
    (expressionParentIsInExpression : Bool) : Option Bool :=
  match expression with
  | .jsParenthesizedExpression _ => some false
  | .jsBinaryExpression _ op r =>
      if expressionParentIsInExpression then some true
      else
        gateExponential expression
          (!(op == JsBinaryOperator.exponent) || !isJsCallExpression r || !exprBeq r node)
  | .jsCallExpression _ args =>
      gateExponential expression (firstCallArgComparedToNode node args).isNone
  | .jsNewExpression _ none => none
  | .jsNewExpression _ (some args) =>
      gateExponential expression (firstCallArgComparedToNode node args).isNone
  | .jsComputedMemberExpression _ member =>
      gateExponential expression (!isJsCallExpression member || !exprBeq member node)
  | .jsInExpression _ _ => some true
  | .jsClassExpression => gateExponential expression true
  | .jsStaticMemberExpression _ _ => gateExponential expression true
  | .jsUnaryExpression _ => gateExponential expression true
  | .jsTemplateExpression => gateExponential expression true
  | e => gateExponential e false

/-- The surroundings of the matched call, standing in for the Rust parent
queries `node.parent::<AnyJsExpression>()`, `node.parent::<JsExtendsClause>()`,
`extends_clause.parent::<JsClassDeclaration>()` and
`extends_clause.parent::<JsClassExpression>()`.  Parent links are lookup-only
navigation, so the embedding passes the surrounding context explicitly; for an
expression parent the flag records whether that parent's own parent is a
`JsInExpression`. -/
inductive CallNodeParent
  | jsExpression (parent : Expr) (parentOfParentIsInExpression : Bool)
  | jsExtendsClauseOfClassDeclaration
  | jsExtendsClauseOfClassExpression
  | jsExtendsClauseOther
  | nonExpressionParent

/-- `does_exponentiation_expression_need_parens`: determines whether the new
exponentiation expression needs parens at the matched call's position, and
which parent node may need its own wrap. -/
def does_exponentiation_expression_need_parens (node : Expr) (parent : CallNodeParent) :
    Option (Bool × Option Expr) :=
  match parent with
  | .jsExpression p pIsIn =>
      match does_expression_need_parens node p pIsIn with
      | none => none
      | some true => some (true, some p)
      | some false => none
  | .jsExtendsClauseOfClassDeclaration => some (true, none)
  | .jsExtendsClauseOfClassExpression =>
      match does_expression_need_parens node Expr.jsClassExpression false with
      | none => none
      | some true => some (true, some Expr.jsClassExpression)
      | some false => none
  | .jsExtendsClauseOther => none
  | .nonExpressionParent => none

/-- `does_base_need_parens`: `'**'` is right-associative, so the base needs
parens when its precedence is at most exponential, or when it is syntactically
a unary, an await, or a pre/post update expression. -/
def does_base_need_parens (base : Expr) : Bool :=
  decide (precedence base ≤ OperatorPrecedence.exponential)
    || isJsUnaryExpression base
    || isJsAwaitExpression base
    || isJsPreUpdateExpression base
    || isJsPostUpdateExpression base

/-- `does_exponent_need_parens`: the exponent needs parens only when its
precedence is strictly below exponential. -/
def does_exponent_need_parens (exponent : Expr) : Bool :=
  decide (precedence exponent < OperatorPrecedence.exponential)

/-- Modelled from the spec: the action-category tag (`ActionCategory` in
`rome_analyze`, not under `src/`), e.g. quick-fix. -/
inductive ActionCategory
  | quickFix
  | refactor
  deriving DecidableEq, Repr

/-- Modelled from the spec: the applicability confidence of a fix
(`Applicability` in `rome_diagnostics`, not under `src/`): safe versus
may-be-incorrect. -/
inductive Applicability
  | safe
  | maybeIncorrect
  deriving DecidableEq, Repr

/-- A rule action: category, applicability confidence, and the recorded batch
mutation, i.e. the ordered list of `replace_node(old, new)` pairs. -/
structure JsRuleAction where
  category : ActionCategory
  applicability : Applicability
  edits : List (Expr × Expr)
  deriving Repr

/-- `make::parenthesized`. -/
def makeParenthesized (e : Expr) : Expr :=
  .jsParenthesizedExpression e

/-- `UseExponentiationOperator::action`: requires exactly two well-formed
expression arguments, wraps each operand per the operand deciders, builds the
new `**` binary expression, consults the substitution-site decider to decide
whether the parent and the new expression must be wrapped, and records the
`replace_node` edits in order. -/
def action (node : Expr) (parent : CallNodeParent) : Option JsRuleAction :=
  match node with
  | .jsCallExpression callee0 args =>
    match args with
    | [CallArgEntry.okExpr base0, CallArgEntry.okExpr exponent0] =>
      let base := if does_base_need_parens base0 then makeParenthesized base0 else base0
      let exponent :=
        if does_exponent_need_parens exponent0 then makeParenthesized exponent0 else exponent0
      let newNode := Expr.jsBinaryExpression base JsBinaryOperator.exponent exponent
      let wired :=
        match does_exponentiation_expression_need_parens
            (Expr.jsCallExpression callee0 args) parent with
        | some (needsParens, some p) =>
            (makeParenthesized newNode,
             if needsParens then [(p, makeParenthesized p)] else [])
        | some (_, none) => (makeParenthesized newNode, [])
        | none => (newNode, [])
      some
        { category := ActionCategory.quickFix
          applicability := Applicability.maybeIncorrect
          edits := wired.2 ++ [(Expr.jsCallExpression callee0 args, wired.1)] }
    | _ => none
  | _ => none

mutual

/-- Replace every occurrence (by node identity, modelled as structural
equality) of `old` with `new`; the replacement itself is not revisited. -/
def substExpr (old new : Expr) (t : Expr) : Expr :=
  if exprBeq t old then new else
    match t with
    | .jsParenthesizedExpression e => .jsParenthesizedExpression (substExpr old new e)
    | .jsBinaryExpression l op r =>
        .jsBinaryExpression (substExpr old new l) op (substExpr old new r)
    | .jsCallExpression c args => .jsCallExpression (substExpr old new c) (substArgs old new args)
    | .jsNewExpression c args => .jsNewExpression (substExpr old new c) (substOptArgs old new args)
    | .jsStaticMemberExpression o m => .jsStaticMemberExpression (substExpr old new o) m
    | .jsComputedMemberExpression o m =>
        .jsComputedMemberExpression (substExpr old new o) (substExpr old new m)
    | .jsInExpression p o => .jsInExpression (substExpr old new p) (substExpr old new o)
    | .jsClassExpression => .jsClassExpression
    | .jsUnaryExpression a => .jsUnaryExpression (substExpr old new a)
    | .jsAwaitExpression a => .jsAwaitExpression (substExpr old new a)
    | .jsPreUpdateExpression a => .jsPreUpdateExpression (substExpr old new a)
    | .jsPostUpdateExpression a => .jsPostUpdateExpression (substExpr old new a)
    | .jsTemplateExpression => .jsTemplateExpression
    | .jsIdentifierExpression n => .jsIdentifierExpression n
    | .jsStringLiteralExpression s => .jsStringLiteralExpression s
    | .jsNumberLiteralExpression n => .jsNumberLiteralExpression n
    | .jsConditionalExpression a b c =>
        .jsConditionalExpression (substExpr old new a) (substExpr old new b) (substExpr old new c)
    | .jsSequenceExpression a b => .jsSequenceExpression (substExpr old new a) (substExpr old new b)
termination_by structural t

/-- Substitution in an argument list. -/
def substArgs (old new : Expr) : List (CallArgEntry Expr) → List (CallArgEntry Expr)
  | [] => []
  | .okExpr e :: rest => .okExpr (substExpr old new e) :: substArgs old new rest
  | .okSpread :: rest => .okSpread :: substArgs old new rest
  | .err :: rest => .err :: substArgs old new rest
termination_by structural l => l

/-- Substitution in an optional argument list. -/
def substOptArgs (old new : Expr) :
    Option (List (CallArgEntry Expr)) → Option (List (CallArgEntry Expr))
  | none => none
  | some args => some (substArgs old new args)
termination_by structural l => l

end

/-- Modelled from the spec: committing a batch mutation (`rome_rowan`, not
under `src/`): the ordered collection of `(old-node, new-subtree)` replacement
pairs is applied atomically.  Pairs are keyed on the identity of the replaced
node; the descendant replacement (recorded last by the action) is committed
first, and a pair whose node no longer occurs in the tree afterwards is a
no-op. -/
def commitEdits (edits : List (Expr × Expr)) (root : Expr) : Expr :=
  edits.foldr (fun edit acc => substExpr edit.1 edit.2 acc) root

/-- The tree produced by accepting the rule's proposed fix: the action's
recorded mutation committed against the root. -/
def fixOutput (root : Expr) (node : Expr) (parent : CallNodeParent) : Option Expr :=
  (action node parent).map fun a => commitEdits a.edits root

mutual

/-- Whether re-running the rule over a tree yields a signal at any
subexpression: the rule's query visits every call expression. -/
def containsSignal (model : SemanticModel) : Expr → Bool
  | .jsParenthesizedExpression e => containsSignal model e
  | .jsBinaryExpression l _ r => containsSignal model l || containsSignal model r
  | .jsCallExpression c args =>
      (run model (.jsCallExpression c args)).isSome
        || containsSignal model c || containsSignalArgs model args
  | .jsNewExpression c args => containsSignal model c || containsSignalOptArgs model args
  | .jsStaticMemberExpression o _ => containsSignal model o
  | .jsComputedMemberExpression o m => containsSignal model o || containsSignal model m
  | .jsInExpression p o => containsSignal model p || containsSignal model o
  | .jsClassExpression => false
  | .jsUnaryExpression a => containsSignal model a
  | .jsAwaitExpression a => containsSignal model a
  | .jsPreUpdateExpression a => containsSignal model a
  | .jsPostUpdateExpression a => containsSignal model a
  | .jsTemplateExpression => false
  | .jsIdentifierExpression _ => false
  | .jsStringLiteralExpression _ => false
  | .jsNumberLiteralExpression _ => false
  | .jsConditionalExpression a b c =>
      containsSignal model a || containsSignal model b || containsSignal model c
  | .jsSequenceExpression a b => containsSignal model a || containsSignal model b
termination_by structural e => e

/-- Signal search over an argument list. -/
def containsSignalArgs (model : SemanticModel) : List (CallArgEntry Expr) → Bool
  | [] => false
  | .okExpr e :: rest => containsSignal model e || containsSignalArgs model rest
  | .okSpread :: rest => containsSignalArgs model rest
  | .err :: rest => containsSignalArgs model rest
termination_by structural l => l

/-- Signal search over an optional argument list. -/
def containsSignalOptArgs (model : SemanticModel) : Option (List (CallArgEntry Expr)) → Bool
  | none => false
  | some args => containsSignalArgs model args
termination_by structural l => l

end

/-- `MarkupElement` (`crates/rome_console/src/markup.rs`): the supported
markup elements. -/
inductive MarkupElement
  | emphasis
  | dim
  | italic
  | underline
  | error
  | success
  | warn
  | info
  deriving DecidableEq, Repr

/-- The four semantic colors a markup element can set. -/
inductive Color
  | red
  | green
  | yellow
  | blue
  deriving DecidableEq, Repr

/-- A `termcolor::ColorSpec` as the printer uses it: the style bits it sets
plus the foreground color. -/
structure ColorSpec where
  bold : Bool
  dimmed : Bool
  italic : Bool
  underline : Bool
  fg : Option Color
  deriving DecidableEq, Repr

/-- `ColorSpec::new()`: the default style. -/
def ColorSpec.new : ColorSpec :=
  ⟨false, false, false, false, none⟩

/-- `MarkupElement::update_color`: mutate a `ColorSpec` in place to apply this
element's associated style. -/
def MarkupElement.update_color : MarkupElement → ColorSpec → ColorSpec
  | .emphasis, c => { c with bold := true }
  | .dim, c => { c with dimmed := true }
  | .italic, c => { c with italic := true }
  | .underline, c => { c with underline := true }
  | .error, c => { c with fg := some Color.red }
  | .success, c => { c with fg := some Color.green }
  | .warn, c => { c with fg := some Color.yellow }
  | .info, c => { c with fg := some Color.blue }

/-- `MarkupNode`: a piece of text with the markup elements applied to it. -/
structure MarkupNode where
  elements : List MarkupElement
  content : String

/-- `Markup`: a container for a list of markup nodes. -/
structure Markup where
  nodes : List MarkupNode

/-- One operation the printer issues against the `WriteColor` stream. -/
inductive StreamOp
  | setColor (spec : ColorSpec)
  | writeContent (content : String)
  | reset
  deriving DecidableEq, Repr

/-- A `WriteColor` stream collaborator: from a stream state and an operation,
the next state and whether the operation succeeded (a failed operation is an
I/O error). -/
def WriteColorStream (σ : Type) : Type :=
  σ → StreamOp → σ × Bool

/-- The outcome of a print run: the ordered trace of attempted stream
operations with each operation's success, the final stream state, and whether
the run returned `Ok`. -/
structure PrintRun (σ : Type) where
  trace : List (StreamOp × Bool)
  final : σ
  ok : Bool

/-- The node-by-node loop of `Markup::print`: for each node, fold the node's
elements into a `ColorSpec`, set the color, write the content — on a failed
set-color or write, attempt a reset and return the error — and after the last
node reset the stream. -/
def printNodes {σ : Type} (stream : WriteColorStream σ) :
    List MarkupNode → σ → PrintRun σ
  | [], s =>
      let r := stream s StreamOp.reset
      ⟨[(StreamOp.reset, r.2)], r.1, r.2⟩
  | node :: rest, s =>
      let color := node.elements.foldl (fun c e => e.update_color c) ColorSpec.new
      let r1 := stream s (StreamOp.setColor color)
      if r1.2 then
        let r2 := stream r1.1 (StreamOp.writeContent node.content)
        if r2.2 then
          let tail := printNodes stream rest r2.1
          ⟨(StreamOp.setColor color, true) :: (StreamOp.writeContent node.content, true) :: tail.trace,
           tail.final, tail.ok⟩
        else
          let r3 := stream r2.1 StreamOp.reset
          ⟨[(StreamOp.setColor color, true), (StreamOp.writeContent node.content, false),
            (StreamOp.reset, r3.2)], r3.1, false⟩
      else
        let r2 := stream r1.1 StreamOp.reset
        ⟨[(StreamOp.setColor color, false), (StreamOp.reset, r2.2)], r2.1, false⟩

/-- `Markup::print`: render the markup nodes to a color-capable stream. -/
def Markup.print {σ : Type} (m : Markup) (stream : WriteColorStream σ) (s : σ) : PrintRun σ :=
  printNodes stream m.nodes s

/-- The identifier `a`. -/
def identA : Expr := .jsIdentifierExpression "a"

/-- The identifier `b`. -/
def identB : Expr := .jsIdentifierExpression "b"

/-- The identifier `c`. -/
def identC : Expr := .jsIdentifierExpression "c"

/-- A call `Math.pow(...)` with the given argument list. -/
def mathPowCall (args : List (CallArgEntry Expr)) : Expr :=
  .jsCallExpression (.jsStaticMemberExpression (.jsIdentifierExpression "Math") "pow") args

/-- The call `Math.pow(a, b)`. -/
def mathPowAB : Expr := mathPowCall [.okExpr identA, .okExpr identB]

/-- A semantic model in which every identifier reference is unresolved
(no local declarations shadow anything). -/
def model0 : SemanticModel := ⟨fun _ => none⟩

/-- The expression `Math.pow(a, b) ** c`: the matched call is the base of an
enclosing exponentiation. -/
def powBaseOfExponent : Expr := .jsBinaryExpression mathPowAB .exponent identC

/-- The expression `(a ** b) ** c`. -/
def wrappedBaseOfExponent : Expr :=
  .jsBinaryExpression
    (.jsParenthesizedExpression (.jsBinaryExpression identA .exponent identB))
    .exponent identC

/-- The expression `Math.pow(Math.pow(a, b), c)`. -/
def nestedPow : Expr := mathPowCall [.okExpr mathPowAB, .okExpr identC]

/-- The expression `Math.pow(a, b) ** c` — the fix output for `nestedPow`. -/
def nestedPowFixed : Expr := .jsBinaryExpression mathPowAB .exponent identC

/-- Modelled from the spec: re-inferring grouping from precedence and
associativity (the parser is not under `src/`).  The operand slot of a
unary-family construct (unary operator, await) accepts an unparenthesized
operand only when the operand's precedence is at least the unary level; an
unparenthesized operand of lower precedence does not re-parse as the operand
of that slot (for an await parent, `await a ** b` does not parse as awaiting
the whole exponentiation). -/
def unaryOperandSlotAccepts (operand : Expr) : Bool :=
  isJsParenthesizedExpression operand
    || decide (OperatorPrecedence.unary ≤ precedence operand)

/-- The match condition of claim C3, stated structurally: the node is a call
expression whose callee, stripped of parentheses, is a member access named
`pow`, whose object, stripped of parentheses, extracts as a global identifier
named `Math`, and whose binding lookup is unresolved. -/
def matchesUnshadowedMathPow (model : SemanticModel) (e : Expr) : Prop :=
  ∃ callee args memberExpr obj reference,
    e = Expr.jsCallExpression callee args ∧
    castAnyJsMemberExpression (omitParentheses callee) = some memberExpr ∧
    memberName memberExpr = some "pow" ∧
    memberObject memberExpr = some obj ∧
    globalIdentifier (omitParentheses obj) = some (reference, "Math") ∧
    model.binding reference = none

/-- The action the rule proposes for `Math.pow(a, b)` in a non-expression
position. -/
def actionForMathPowAB : JsRuleAction :=
  { category := ActionCategory.quickFix
    applicability := Applicability.maybeIncorrect
    edits := [(mathPowAB, Expr.jsBinaryExpression identA JsBinaryOperator.exponent identB)] }

/-- The call `Math.pow(a, b, c)` with three arguments. -/
def threeArgPow : Expr := mathPowCall [.okExpr identA, .okExpr identB, .okExpr identC]

/-- A semantic model in which a local declaration named `Math` is in scope:
the binding lookup for `Math` resolves. -/
def modelShadowedMath : SemanticModel :=
  ⟨fun n => if n = "Math" then some () else none⟩

/-- Claim C2: for the input `Math.pow(a, b) ** c`, where the matched call is
the base of an enclosing exponentiation, the substitution-site decider reports
that wrapping is needed (naming the binary parent as the node to wrap), and
committing the proposed fix produces exactly `(a ** b) ** c`. -/
theorem c2_base_of_outer_exponentiation_is_wrapped :
    does_exponentiation_expression_need_parens mathPowAB
        (CallNodeParent.jsExpression powBaseOfExponent false) =
      some (true, some powBaseOfExponent) ∧
    fixOutput powBaseOfExponent mathPowAB
        (CallNodeParent.jsExpression powBaseOfExponent false) =
      some wrappedBaseOfExponent :=
  ⟨rfl, rfl⟩

/-- Claim C1 (failing input): for `await Math.pow(a, b)` the rule matches and
the fix is accepted, but the substitution-site decider falls into the
catch-all arm for an await parent and reports no wrapping, so the committed
output is `await` applied to the unparenthesized `a ** b` — an operand the
unary-family slot does not accept, so re-parsing the emitted source cannot
reproduce the intended grouping (in the language, `await a ** b` does not
parse as awaiting the exponentiation). -/
theorem c1_await_parent_not_parenthesized :
    run model0 mathPowAB = some () ∧
    does_exponentiation_expression_need_parens mathPowAB
        (CallNodeParent.jsExpression (Expr.jsAwaitExpression mathPowAB) false) = none ∧
    fixOutput (Expr.jsAwaitExpression mathPowAB) mathPowAB
        (CallNodeParent.jsExpression (Expr.jsAwaitExpression mathPowAB) false) =
      some (Expr.jsAwaitExpression (Expr.jsBinaryExpression identA JsBinaryOperator.exponent identB)) ∧
    unaryOperandSlotAccepts (Expr.jsBinaryExpression identA JsBinaryOperator.exponent identB) = false :=
  ⟨rfl, rfl, rfl, rfl⟩

/-- Claim C8 (counterexample): for the input `Math.pow(Math.pow(a, b), c)` the
rewrite is accepted and produces `Math.pow(a, b) ** c`, yet re-running the
rule over that output still yields a signal — the inner `Math.pow` call copied
from the first argument still matches — so the pattern does not vanish from
the rewritten output. -/
theorem c8_counterexample_inner_pow_still_matches :
    run model0 nestedPow = some () ∧
    fixOutput nestedPow nestedPow CallNodeParent.nonExpressionParent = some nestedPowFixed ∧
    containsSignal model0 nestedPowFixed = true :=
  ⟨rfl, rfl, rfl⟩

/-- Every precedence level is at most the maximum level, `primary`. -/
theorem OperatorPrecedence.le_primary (p : OperatorPrecedence) :
    p ≤ OperatorPrecedence.primary := by
  cases p <;> decide

/-- Claim C7: the rewriter never wraps an already-parenthesized node: the
substitution-site decider short-circuits to no-wrapping on a parenthesized
parent, a parenthesized operand has the maximum precedence level, and neither
operand-side decider ever asks for parentheses around a parenthesized
operand. -/
theorem c7_already_parenthesized_never_rewrapped (node e : Expr) (flag : Bool) :
    does_expression_need_parens node (Expr.jsParenthesizedExpression e) flag = some false ∧
    does_base_need_parens (Expr.jsParenthesizedExpression e) = false ∧
    does_exponent_need_parens (Expr.jsParenthesizedExpression e) = false ∧
    precedence (Expr.jsParenthesizedExpression e) = OperatorPrecedence.primary ∧
    (∀ e2 : Expr, precedence e2 ≤ precedence (Expr.jsParenthesizedExpression e)) :=
  ⟨rfl, rfl, rfl, rfl, fun e2 => OperatorPrecedence.le_primary (precedence e2)⟩

/-- Claim C4: the base operand needs parentheses iff its precedence is at most
the exponential level or it is syntactically a unary, await, pre-update or
post-update expression; the exponent operand needs parentheses iff its
precedence is strictly below the exponential level. -/
theorem c4_operand_side_deciders (e : Expr) :
    (does_base_need_parens e = true ↔
      (precedence e ≤ OperatorPrecedence.exponential ∨
        (∃ a, e = Expr.jsUnaryExpression a) ∨
        (∃ a, e = Expr.jsAwaitExpression a) ∨
        (∃ a, e = Expr.jsPreUpdateExpression a) ∨
        (∃ a, e = Expr.jsPostUpdateExpression a))) ∧
    (does_exponent_need_parens e = true ↔ precedence e < OperatorPrecedence.exponential) := by
  constructor
  · cases e <;>
      simp [does_base_need_parens, isJsUnaryExpression, isJsAwaitExpression,
        isJsPreUpdateExpression, isJsPostUpdateExpression, precedence]
  · simp [does_exponent_need_parens]

/-- Claim C10: every fix the rule proposes is tagged with action category
QuickFix and applicability MaybeIncorrect; no proposed fix carries the safe
confidence level. -/
theorem c10_fixes_are_quickfix_maybe_incorrect (node : Expr) (parent : CallNodeParent)
    (a : JsRuleAction) (h : action node parent = some a) :
    a.category = ActionCategory.quickFix ∧
    a.applicability = Applicability.maybeIncorrect ∧
    a.applicability ≠ Applicability.safe := by
  cases node
  case jsCallExpression callee args =>
    simp only [action] at h
    split at h
    · split at h <;> simp only [Option.some.injEq] at h <;> subst h <;>
        exact ⟨rfl, rfl, by simp⟩
    · exact Option.noConfusion h
  all_goals exact Option.noConfusion h

/-- Witness for claim C10: the action proposed for `Math.pow(a, b)` is a
QuickFix with MaybeIncorrect applicability. -/
theorem c10_witness :
    actionForMathPowAB.category = ActionCategory.quickFix ∧
    actionForMathPowAB.applicability = Applicability.maybeIncorrect ∧
    actionForMathPowAB.applicability ≠ Applicability.safe :=
  c10_fixes_are_quickfix_maybe_incorrect mathPowAB CallNodeParent.nonExpressionParent
    actionForMathPowAB rfl

/-- Claim C6: when the matched call's argument list is not exactly two
well-formed expression arguments — for example a three-argument call — the
propose-fix operation returns no action (absence, not an error), while the
diagnostic for the match is still emitted. -/
theorem c6_wrong_arity_no_fix_diagnostic_kept (callee : Expr)
    (args : List (CallArgEntry Expr)) (parent : CallNodeParent)
    (h : ¬ ∃ b e, args = [CallArgEntry.okExpr b, CallArgEntry.okExpr e]) :
    action (Expr.jsCallExpression callee args) parent = none ∧
    diagnostic (Expr.jsCallExpression callee args) =
      some ⟨Expr.jsCallExpression callee args⟩ := by
  refine ⟨?_, rfl⟩
  match args, h with
  | [], _ => rfl
  | [a1], _ => cases a1 <;> rfl
  | [CallArgEntry.okExpr b, CallArgEntry.okExpr e], h => exact absurd ⟨b, e, rfl⟩ h
  | [CallArgEntry.okExpr b, CallArgEntry.okSpread], _ => rfl
  | [CallArgEntry.okExpr b, CallArgEntry.err], _ => rfl
  | [CallArgEntry.okSpread, a2], _ => rfl
  | [CallArgEntry.err, a2], _ => rfl
  | a1 :: a2 :: a3 :: rest, _ => cases a1 <;> cases a2 <;> rfl

/-- Witness for claim C6: `Math.pow(a, b, c)` gets a diagnostic but no fix. -/
theorem c6_witness :
    action threeArgPow CallNodeParent.nonExpressionParent = none ∧
    diagnostic threeArgPow = some ⟨threeArgPow⟩ :=
  c6_wrong_arity_no_fix_diagnostic_kept
    (Expr.jsStaticMemberExpression (Expr.jsIdentifierExpression "Math") "pow")
    [CallArgEntry.okExpr identA, CallArgEntry.okExpr identB, CallArgEntry.okExpr identC]
    CallNodeParent.nonExpressionParent
    (by rintro ⟨b, e, hEq⟩; simp at hEq)

/-- Node identity is kind-preserving: a node identical to a call expression is
itself a call expression. -/
theorem exprBeq_preserves_call (r node : Expr) (h : exprBeq r node = true)
    (hc : isJsCallExpression node = true) : isJsCallExpression r = true := by
  cases node
  case jsCallExpression c args =>
    cases r
    case jsCallExpression c2 args2 => rfl
    all_goals exact Bool.noConfusion h
  all_goals exact Bool.noConfusion hc

/-- Claim C5: for a binary-expression parent, the per-parent-kind
substitution-site test is applied only when the parent's precedence is at
least the exponential level, in which case the new expression needs wrapping
unless the parent is the same exponential operator with the matched call as
its right operand; and when that binary parent sits inside an `in` test the
decision is unconditionally to wrap. -/
theorem c5_binary_parent_site_test (node l r : Expr) (op : JsBinaryOperator) (isIn : Bool)
    (hnode : isJsCallExpression node = true) :
    (isIn = true →
      does_expression_need_parens node (Expr.jsBinaryExpression l op r) isIn = some true) ∧
    (isIn = false →
      OperatorPrecedence.exponential ≤ precedence (Expr.jsBinaryExpression l op r) →
      (does_expression_need_parens node (Expr.jsBinaryExpression l op r) isIn = some true ↔
        ¬(op = JsBinaryOperator.exponent ∧ exprBeq r node = true))) ∧
    (isIn = false →
      ¬ OperatorPrecedence.exponential ≤ precedence (Expr.jsBinaryExpression l op r) →
      does_expression_need_parens node (Expr.jsBinaryExpression l op r) isIn = some false) := by
  refine ⟨?_, ?_, ?_⟩
  · rintro rfl; rfl
  · rintro rfl hprec
    simp only [does_expression_need_parens, Bool.false_eq_true, if_false, gateExponential,
      decide_eq_true hprec, Bool.and_true, Option.some.injEq, Bool.or_eq_true,
      Bool.not_eq_true']
    constructor
    · intro h hcon
      obtain ⟨hop, hbeq⟩ := hcon
      subst hop
      rcases h with (h | h) | h
      · simp at h
      · rw [exprBeq_preserves_call r node hbeq hnode] at h; exact Bool.noConfusion h
      · rw [hbeq] at h; exact Bool.noConfusion h
    · intro hn
      by_cases hop : op = JsBinaryOperator.exponent
      · rcases Bool.eq_false_or_eq_true (exprBeq r node) with hbeq | hbeq
        · exact absurd ⟨hop, hbeq⟩ hn
        · tauto
      · have hop2 : (op == JsBinaryOperator.exponent) = false := by simp [hop]
        tauto
  · rintro rfl hprec
    simp [does_expression_need_parens, gateExponential, decide_eq_false hprec]

/-- Witness for claim C5: for the parent `Math.pow(a, b) ** c` with the
matched call on the left, the site test asks for wrapping. -/
theorem c5_witness :
    does_expression_need_parens mathPowAB powBaseOfExponent false = some true :=
  ((c5_binary_parent_site_test mathPowAB mathPowAB identC JsBinaryOperator.exponent false
      rfl).2.1 rfl (by decide)).mpr
    (fun h => Bool.noConfusion h.2)

/-- A global-identifier extraction yields the reference of the named
identifier itself. -/
theorem globalIdentifier_components (x : Expr) (r n : String)
    (h : globalIdentifier x = some (r, n)) :
    r = n ∧ x = Expr.jsIdentifierExpression n := by
  cases x <;> simp [globalIdentifier] at h
  case jsIdentifierExpression name =>
    obtain ⟨hr, hn⟩ := h
    subst hr; subst hn; exact ⟨rfl, rfl⟩

/-- Claim C3: the match operation signals exactly when the visited node is a
call expression whose callee, stripped of parentheses, is a member access
named `pow`, whose object, stripped of parentheses, extracts as a global
identifier named `Math`, and whose binding lookup is unresolved; in
particular, whenever a local declaration named `Math` is in scope (the lookup
resolves), no call produces a signal. -/
theorem c3_match_contract (model : SemanticModel) (e : Expr) :
    (run model e = some () ↔ matchesUnshadowedMathPow model e) ∧
    (model.binding "Math" ≠ none → run model e = none) := by
  have hiff : run model e = some () ↔ matchesUnshadowedMathPow model e := by
    cases e
    case jsCallExpression callee args =>
      constructor
      · intro h
        simp only [run] at h
        split at h
        · exact Option.noConfusion h
        rename_i memberExpr hm
        split at h
        · exact Option.noConfusion h
        rename_i name hn
        split at h
        · exact Option.noConfusion h
        rename_i hpow
        split at h
        · exact Option.noConfusion h
        rename_i obj ho
        split at h
        · exact Option.noConfusion h
        rename_i reference gname hg
        split at h
        · exact Option.noConfusion h
        rename_i hmath
        split at h
        case isTrue hb =>
          have hpow2 : name = "pow" := by simpa using hpow
          have hmath2 : gname = "Math" := by simpa using hmath
          subst hpow2; subst hmath2
          exact ⟨callee, args, memberExpr, obj, reference, rfl, hm, hn, ho, hg,
            Option.isNone_iff_eq_none.mp hb⟩
        case isFalse => exact Option.noConfusion h
      · rintro ⟨callee2, args2, memberExpr, obj, reference, hEq, h1, h2, h3, h4, h5⟩
        obtain ⟨hc, ha⟩ : callee2 = callee ∧ args2 = args := by
          injection hEq with hc ha; exact ⟨hc.symm, ha.symm⟩
        subst hc; subst ha
        simp only [run, h1, h2, h3, h4, h5]
        rw [if_neg (by simp), if_neg (by simp)]
        rfl
    all_goals
      simp only [run, false_iff, matchesUnshadowedMathPow]
      constructor
      · intro h; exact Option.noConfusion h
      · rintro ⟨callee, args, memberExpr, obj, reference, hEq, -⟩; exact Expr.noConfusion hEq
  refine ⟨hiff, ?_⟩
  intro hsh
  rcases hrun : run model e with _ | u
  · rfl
  cases u
  obtain ⟨callee, args, memberExpr, obj, reference, -, -, -, -, h4, h5⟩ := hiff.mp hrun
  obtain ⟨hrn, -⟩ := globalIdentifier_components _ _ _ h4
  rw [hrn] at h5
  exact absurd h5 hsh

/-- Witness for claim C3: `Math.pow(a, b)` matches under the unshadowed
model, and does not match when a local `Math` declaration is in scope. -/
theorem c3_witness :
    run model0 mathPowAB = some () ∧ run modelShadowedMath mathPowAB = none :=
  ⟨(c3_match_contract model0 mathPowAB).1.mpr
      ⟨Expr.jsStaticMemberExpression (Expr.jsIdentifierExpression "Math") "pow",
        [CallArgEntry.okExpr identA, CallArgEntry.okExpr identB],
        Expr.jsStaticMemberExpression (Expr.jsIdentifierExpression "Math") "pow",
        Expr.jsIdentifierExpression "Math", "Math", rfl, rfl, rfl, rfl, rfl, rfl⟩,
    (c3_match_contract modelShadowedMath mathPowAB).2 (by simp [modelShadowedMath])⟩

/-- The last of a list of edits ending in a given replacement pair. -/
theorem edits_getLast_append (l : List (Expr × Expr)) (x : Expr × Expr) :
    (l ++ [x]).getLast? = some x :=
  List.getLast?_concat _

/-- Claim C8 (amended): for every accepted rewrite, the expression substituted
at the matched call's position is a `**` binary expression (possibly
parenthesized), never a call expression, so re-running the rule yields no
signal at the replacement itself; calls copied from the original arguments may
still match elsewhere in the output. -/
theorem c8_amended_replacement_is_not_a_call (node : Expr) (parent : CallNodeParent)
    (a : JsRuleAction) (h : action node parent = some a) :
    ∃ replacement, a.edits.getLast? = some (node, replacement) ∧
      isJsCallExpression replacement = false ∧
      ∀ model : SemanticModel, run model replacement = none := by
  cases node
  case jsCallExpression callee args =>
    simp only [action] at h
    split at h
    · split at h <;> simp only [Option.some.injEq] at h <;> subst h <;>
        exact ⟨_, edits_getLast_append _ _, rfl, fun model => rfl⟩
    · exact Option.noConfusion h
  all_goals exact Option.noConfusion h

/-- Witness for the amended claim C8: the replacement recorded for
`Math.pow(a, b)` is not a call expression and never signals. -/
theorem c8_amended_witness :
    ∃ replacement,
      actionForMathPowAB.edits.getLast? = some (mathPowAB, replacement) ∧
      isJsCallExpression replacement = false ∧
      ∀ model : SemanticModel, run model replacement = none :=
  c8_amended_replacement_is_not_a_call mathPowAB CallNodeParent.nonExpressionParent
    actionForMathPowAB rfl

/-- A two-step extension of a trace keeps its last element. -/
theorem getLast_map_fst_shift (x y : StreamOp × Bool) (l : List (StreamOp × Bool))
    (hl : l.getLast?.map Prod.fst = some StreamOp.reset) :
    (x :: y :: l).getLast?.map Prod.fst = some StreamOp.reset := by
  cases l with
  | nil => simp at hl
  | cons z zs => rw [List.getLast?_cons_cons, List.getLast?_cons_cons]; exact hl

/-- The printer loop always issues a reset as its final stream operation. -/
theorem printNodes_ends_with_reset {σ : Type} (stream : WriteColorStream σ)
    (nodes : List MarkupNode) (s : σ) :
    (printNodes stream nodes s).trace.getLast?.map Prod.fst = some StreamOp.reset := by
  induction nodes generalizing s with
  | nil => simp [printNodes]
  | cons node rest ih =>
    simp only [printNodes]
    split
    · split
      · exact getLast_map_fst_shift _ _ _ (ih _)
      · simp
    · simp

/-- The printer loop returns `Ok` exactly when every stream operation it
attempted succeeded. -/
theorem printNodes_ok_iff_all_ops_succeed {σ : Type} (stream : WriteColorStream σ)
    (nodes : List MarkupNode) (s : σ) :
    (printNodes stream nodes s).ok = true ↔
      ∀ p ∈ (printNodes stream nodes s).trace, p.2 = true := by
  induction nodes generalizing s with
  | nil => simp [printNodes]
  | cons node rest ih =>
    simp only [printNodes]
    split
    · split
      · simp [ih]
      · simp
    · simp

/-- Claim C9: every markup print run ends by issuing a reset to the stream —
also when a set-color or a write fails mid-render — and the run reports `Ok`
exactly when every attempted stream operation succeeded, so any write failure
is propagated to the caller as an I/O error and never silently swallowed. -/
theorem c9_print_always_resets_and_propagates_failures {σ : Type} (m : Markup)
    (stream : WriteColorStream σ) (s : σ) :
    ((m.print stream s).trace.getLast?.map Prod.fst = some StreamOp.reset) ∧
    ((m.print stream s).ok = true ↔ ∀ p ∈ (m.print stream s).trace, p.2 = true) :=
  ⟨printNodes_ends_with_reset stream m.nodes s,
    printNodes_ok_iff_all_ops_succeed stream m.nodes s⟩
